import Mathlib

/-! Shallow embedding of the data layer of the Resident QI Project Tracker
(`src/app.py`).  The app keeps two pandas DataFrames — a projects table and a
PDSA-cycles table — in memory, mutates them in event handlers, and rewrites two
CSV files after every mutation.  Here each table is a Lean list of records; a
pandas missing value (NaN), which arises whenever an empty CSV cell is read
back, is modelled as `none` in an `Option String` field.  The repository
operations are translated from the corresponding handler code in `main`, and
theorems below establish the specified properties of filtering, tag
collection, id assignment, cascade delete, bulk PDSA replacement, the storage
initializer, CSV import failure, and the save/load round trip. -/

namespace QITracker

/-- One row of the projects table as pandas holds it in memory: the `id`
column is integer-typed; every other column is nullable text, where `none`
models NaN (a missing value, as produced when an empty CSV cell is read). -/
structure Project where
  id : Int
  title : Option String
  smart_aim : Option String
  problem_statement : Option String
  status : Option String
  metrics : Option String
  advisor : Option String
  service : Option String
  start_date : Option String
  end_date : Option String
  tags : Option String
deriving DecidableEq

/-- One row of the PDSA-cycles table: `project_id` is the integer foreign key
to `Project.id`; the remaining columns are nullable text. -/
structure PdsaCycle where
  project_id : Int
  cycle_name : Option String
  plan : Option String
  do_ : Option String
  study : Option String
  act : Option String
  date : Option String
deriving DecidableEq

/-- Python's `str.split(sep)` for a one-character separator, on character
lists.  Splitting the empty text yields one empty piece, as in Python. -/
def splitOnChar (sep : Char) : List Char → List (List Char)
  | [] => [[]]
  | c :: rest =>
    match splitOnChar sep rest with
    | [] => [[c]]
    | g :: gs => if c = sep then [] :: g :: gs else (c :: g) :: gs

/-- Python's `str.strip()`: drop leading and trailing whitespace. -/
def pyStrip (cs : List Char) : List Char :=
  ((cs.dropWhile Char.isWhitespace).reverse.dropWhile Char.isWhitespace).reverse

/-- The tag tokenisation the app performs on one stored tags value
(`src/app.py` lines 94–97): split on commas, strip whitespace, keep the
nonempty pieces. -/
def splitTags (t : String) : List String :=
  ((splitOnChar ',' t.data).map (fun cs => String.mk (pyStrip cs))).filter
    (fun s => s != "")

/-- One regex pattern character against one text character, for the pattern
fragment this development models: a dot matches any character except a
newline (Python `re` without DOTALL); any other character here is a literal
and matches only itself.  Patterns using further regex metacharacters are
outside the modelled fragment. -/
def reChar (pc c : Char) : Bool :=
  if pc = '.' then c != '\n' else pc == c

/-- A pattern of the modelled fragment matched at the start of the text. -/
def reMatchHere : List Char → List Char → Bool
  | [], _ => true
  | _ :: _, [] => false
  | p :: ps, c :: cs => reChar p c && reMatchHere ps cs

/-- Python's `re.search` on the modelled fragment: the pattern matches at
some position of the text. -/
def reSearch (pat : List Char) : List Char → Bool
  | [] => pat.isEmpty
  | hay@(_ :: rest) => reMatchHere pat hay || reSearch pat rest

/-- Models `Series.str.contains` (`src/app.py` line 105): pandas interprets
the pattern as a regular expression (`regex=True` by default) and reports
whether `re.search` finds a match, case-sensitively.  Modelled for patterns
made of literal characters and the dot metacharacter; for patterns free of
metacharacters this coincides with literal substring containment (proved
below). -/
def strContainsRegex (hay pat : String) : Bool :=
  reSearch pat.data hay.data

/-- The project filtering the sidebar performs (`src/app.py` lines 101–105):
when the status selector is not the sentinel "All", keep rows whose status
column equals it; then, when the tag selector is not "All", keep rows whose
tags column matches it under `str.contains` — a regex search by pandas
default — with a NaN tags cell never matching (`na=False`). -/
def filter_projects (ps : List Project) (status tag : String) : List Project :=
  let byStatus :=
    if status == "All" then ps
    else ps.filter (fun p => p.status == some status)
  if tag == "All" then byStatus
  else byStatus.filter (fun p =>
    match p.tags with
    | some t => strContainsRegex t tag
    | none => false)

/-- The tags value the tag-collection loop reads from one row
(`projects["tags"].fillna("")`, `src/app.py` line 93): NaN is replaced by the
empty string. -/
def tagsOrEmpty (p : Project) : String :=
  p.tags.getD ""

/-- Adding one label to the accumulated label list unless already present:
models insertion into the Python set `tag_set` while recording first-insertion
order. -/
def insertNew (acc : List String) (t : String) : List String :=
  if t ∈ acc then acc else acc ++ [t]

/-- The distinct-tag collection the sidebar performs (`src/app.py` lines
92–97): every row's tags value (NaN read as empty) is split on commas,
stripped, and the nonempty labels are accumulated into a set. -/
def distinct_tags (ps : List Project) : List String :=
  ps.foldl (fun acc p => (splitTags (tagsOrEmpty p)).foldl insertNew acc) []

/-- Left fold of `max` over an integer list, models `Series.max()` on a
nonempty column seeded with its first entry. -/
def foldlMax (a : Int) (l : List Int) : Int :=
  l.foldl max a

/-- New id assignment (`src/app.py` line 119):
`projects["id"].max() + 1 if not projects.empty else 1`. -/
def next_id : List Project → Int
  | [] => 1
  | p :: rest => foldlMax p.id (rest.map Project.id) + 1

/-- The row the "Add new project" handler appends (`src/app.py` lines
120–134): a fresh id, empty text fields, status "In Progress" and today's
date as start date. -/
def newProjectRecord (i : Int) (today : String) : Project :=
  { id := i, title := some "", smart_aim := some "", problem_statement := some ""
    status := some "In Progress", metrics := some "", advisor := some ""
    service := some "", start_date := some today, end_date := some ""
    tags := some "" }

/-- The "Add new project" handler (`src/app.py` lines 118–136): append a new
row carrying `next_id`. -/
def add_project (ps : List Project) (today : String) : List Project :=
  ps ++ [newProjectRecord (next_id ps) today]

/-- The ten mutable fields as the project form submits them: the widgets
always produce plain strings. -/
structure ProjectFields where
  title : String
  smart_aim : String
  problem_statement : String
  status : String
  metrics : String
  advisor : String
  service : String
  start_date : String
  end_date : String
  tags : String

/-- The "Save Project" handler (`src/app.py` lines 169–180): overwrite the
ten mutable fields of the row at position `i`, leaving its `id` untouched;
out-of-range positions leave the table unchanged. -/
def update_project (ps : List Project) (i : Nat) (f : ProjectFields) : List Project :=
  match ps[i]? with
  | none => ps
  | some p =>
    ps.set i { p with
      title := some f.title, smart_aim := some f.smart_aim
      problem_statement := some f.problem_statement, status := some f.status
      metrics := some f.metrics, advisor := some f.advisor
      service := some f.service, start_date := some f.start_date
      end_date := some f.end_date, tags := some f.tags }

/-- The "Delete project" handler (`src/app.py` lines 182–187): drop the
selected row at position `i` and keep only the PDSA rows whose `project_id`
differs from that row's id. -/
def delete_project (ps : List Project) (cs : List PdsaCycle) (i : Nat) :
    List Project × List PdsaCycle :=
  match ps[i]? with
  | none => (ps, cs)
  | some p => (ps.eraseIdx i, cs.filter (fun c => !(c.project_id == p.id)))

/-- The "Save PDSA cycles" handler (`src/app.py` lines 193–196): keep the
cycles of the other projects and append the edited rows after them. -/
def replace_pdsa_for_project (cs : List PdsaCycle) (pid : Int)
    (newRows : List PdsaCycle) : List PdsaCycle :=
  cs.filter (fun c => !(c.project_id == pid)) ++ newRows

/-- The "Add PDSA" handler (`src/app.py` lines 207–220): append one cycle row
for the selected project. -/
def add_pdsa (cs : List PdsaCycle) (c : PdsaCycle) : List PdsaCycle :=
  cs ++ [c]

/-- The persistent storage as `ensure_data_dir` sees it: whether the data
directory exists and the parsed contents of the two CSV files when present. -/
structure StorageState where
  dirExists : Bool
  projectsFile : Option (List (List String))
  pdsaFile : Option (List (List String))
deriving DecidableEq

/-- Header row of the projects CSV file. -/
def projectsHeader : List String :=
  ["id", "title", "smart_aim", "problem_statement", "status", "metrics",
   "advisor", "service", "start_date", "end_date", "tags"]

/-- The example row `ensure_data_dir` seeds (`src/app.py` lines 17–31). -/
def exampleProjectRow : List String :=
  ["1", "Example Project",
   "Increase hand hygiene compliance by 10% within 3 months",
   "Current compliance is at 60%", "In Progress", "Compliance rate",
   "Dr. Smith", "Infection Control", "2024-01-01", "2024-04-01",
   "hand hygiene"]

/-- Header row of the PDSA CSV file (`src/app.py` line 35). -/
def pdsaHeader : List String :=
  ["project_id", "cycle_name", "plan", "do", "study", "act", "date"]

/-- The storage initializer `ensure_data_dir` (`src/app.py` lines 12–36):
create the data directory when missing, seed the projects file with the one
example row when missing, and seed the PDSA file with a header-only table
when missing.  Existing files are never touched. -/
def ensure_data_dir (fs : StorageState) : StorageState :=
  let fs1 := if fs.dirExists then fs else { fs with dirExists := true }
  let fs2 :=
    if fs1.projectsFile.isSome then fs1
    else { fs1 with projectsFile := some [projectsHeader, exampleProjectRow] }
  if fs2.pdsaFile.isSome then fs2
  else { fs2 with pdsaFile := some [pdsaHeader] }

/-- Concrete project with id 1 used in witness statements. -/
def pW1 : Project :=
  ⟨1, some "Alpha", none, none, some "In Progress", none, none, none, none,
   none, some "safety"⟩

/-- Concrete project with id 5 used in witness statements. -/
def pW5 : Project :=
  ⟨5, some "Beta", some "Aim", some "Problem", some "Completed", some "Rate",
   some "Dr. A", some "Ward", some "2024-01-01", some "2024-04-01",
   some "hand hygiene"⟩

/-- Concrete project whose tags cell is missing (NaN), used in witness
statements. -/
def pWNaN : Project :=
  ⟨7, some "NoTags", none, none, some "Completed", none, none, none, none,
   none, none⟩

/-- Concrete project carrying only an id, used in witness statements. -/
def pWid (i : Int) : Project :=
  ⟨i, none, none, none, none, none, none, none, none, none, none⟩

/-- Concrete PDSA cycle used in witness statements. -/
def cycW (pid : Int) (nm : String) : PdsaCycle :=
  ⟨pid, some nm, none, none, none, none, none⟩

/-- C10: for every projects collection and every non-"All" tag selector, a
project whose tags field is missing (NaN) is never included in the filtered
result. -/
theorem missing_tags_excluded (ps : List Project) (status tag : String)
    (p : Project) (htag : tag ≠ "All") (hp : p.tags = none) :
    p ∉ filter_projects ps status tag := by
  intro hmem
  have ht : (tag == "All") = false := beq_eq_false_iff_ne.mpr htag
  unfold filter_projects at hmem
  rw [ht] at hmem
  simp only [Bool.false_eq_true, if_false, List.mem_filter] at hmem
  rw [hp] at hmem
  simp at hmem

/-- Witness for C10 at a concrete input: the project with missing tags is not
in the result of filtering for the tag "hygiene". -/
theorem missing_tags_excluded_witness :
    pWNaN ∉ filter_projects [pWNaN] "All" "hygiene" :=
  missing_tags_excluded [pWNaN] "All" "hygiene" pWNaN (by decide) rfl

/-- Membership in the label accumulator after one insertion. -/
theorem mem_insertNew {acc : List String} {t x : String} :
    x ∈ insertNew acc t ↔ x ∈ acc ∨ x = t := by
  unfold insertNew
  split
  · next h =>
    constructor
    · exact Or.inl
    · rintro (h1 | rfl)
      · exact h1
      · exact h
  · simp

/-- One insertion keeps the accumulator duplicate-free. -/
theorem nodup_insertNew {acc : List String} {t : String} (h : acc.Nodup) :
    (insertNew acc t).Nodup := by
  unfold insertNew
  split
  · exact h
  · next hne =>
    rw [List.nodup_append_comm, List.singleton_append, List.nodup_cons]
    exact ⟨hne, h⟩

/-- Membership after folding a label list into the accumulator. -/
theorem mem_foldl_insertNew (l : List String) :
    ∀ (acc : List String) (x : String),
      x ∈ l.foldl insertNew acc ↔ x ∈ acc ∨ x ∈ l := by
  induction l with
  | nil => intro acc x; simp
  | cons b bs ih =>
    intro acc x
    rw [List.foldl_cons, ih, mem_insertNew]
    simp [List.mem_cons, or_assoc]

/-- Folding a label list keeps the accumulator duplicate-free. -/
theorem nodup_foldl_insertNew (l : List String) :
    ∀ acc : List String, acc.Nodup → (l.foldl insertNew acc).Nodup := by
  induction l with
  | nil => intro acc h; exact h
  | cons b bs ih =>
    intro acc h
    rw [List.foldl_cons]
    exact ih _ (nodup_insertNew h)

/-- Membership after folding the whole projects collection into the
accumulator. -/
theorem mem_collect_tags (ps : List Project) :
    ∀ (acc : List String) (x : String),
      x ∈ ps.foldl (fun acc p => (splitTags (tagsOrEmpty p)).foldl insertNew acc) acc
        ↔ x ∈ acc ∨ ∃ p ∈ ps, x ∈ splitTags (tagsOrEmpty p) := by
  induction ps with
  | nil => intro acc x; simp
  | cons q qs ih =>
    intro acc x
    rw [List.foldl_cons, ih, mem_foldl_insertNew]
    simp [List.mem_cons, or_assoc]

/-- C5: `distinct_tags` returns a duplicate-free list whose members are
exactly the labels obtained from some project's tags field by splitting on
commas, trimming whitespace and discarding empty pieces. -/
theorem distinct_tags_spec (ps : List Project) :
    (distinct_tags ps).Nodup ∧
      ∀ t : String,
        t ∈ distinct_tags ps ↔ ∃ p ∈ ps, t ∈ splitTags (tagsOrEmpty p) := by
  constructor
  · unfold distinct_tags
    have haux : ∀ (l : List Project) (acc : List String), acc.Nodup →
        (l.foldl (fun acc p => (splitTags (tagsOrEmpty p)).foldl insertNew acc) acc).Nodup := by
      intro l
      induction l with
      | nil => intro acc h; exact h
      | cons q qs ih =>
        intro acc h
        rw [List.foldl_cons]
        exact ih _ (nodup_foldl_insertNew _ _ h)
    exact haux ps [] List.nodup_nil
  · intro t
    unfold distinct_tags
    rw [mem_collect_tags]
    simp

/-- Witness for C5 at a concrete input: membership of the label "b" in the
collected tags of two projects reduces to membership in one of their split
tags fields. -/
theorem distinct_tags_spec_witness :
    "b" ∈ distinct_tags [{ pWid 1 with tags := some "a, b" }]
      ↔ ∃ p ∈ [{ pWid 1 with tags := some "a, b" }],
          "b" ∈ splitTags (tagsOrEmpty p) :=
  (distinct_tags_spec [{ pWid 1 with tags := some "a, b" }]).2 "b"

/-- The spec's example: tags values "a, b" and "b, c" yield exactly the
labels a, b, c. -/
theorem distinct_tags_example :
    distinct_tags [{ pWid 1 with tags := some "a, b" },
                   { pWid 2 with tags := some "b, c" }] = ["a", "b", "c"] := by
  decide

/-- Folding `max` never goes below its seed. -/
theorem le_foldlMax_init (l : List Int) : ∀ a : Int, a ≤ foldlMax a l := by
  induction l with
  | nil => intro a; exact le_refl a
  | cons b bs ih =>
    intro a
    show a ≤ foldlMax (max a b) bs
    exact le_trans (le_max_left a b) (ih (max a b))

/-- Folding `max` dominates every list member. -/
theorem le_foldlMax_mem (l : List Int) :
    ∀ (a x : Int), x ∈ l → x ≤ foldlMax a l := by
  induction l with
  | nil => intro a x hx; cases hx
  | cons b bs ih =>
    intro a x hx
    show x ≤ foldlMax (max a b) bs
    rcases List.mem_cons.mp hx with rfl | h
    · exact le_trans (le_max_right a x) (le_foldlMax_init bs (max a x))
    · exact ih _ x h

/-- The fold of `max` is its seed or some list member. -/
theorem foldlMax_eq_init_or_mem (l : List Int) :
    ∀ a : Int, foldlMax a l = a ∨ foldlMax a l ∈ l := by
  induction l with
  | nil => intro a; exact Or.inl rfl
  | cons b bs ih =>
    intro a
    show foldlMax (max a b) bs = a ∨ foldlMax (max a b) bs ∈ b :: bs
    rcases ih (max a b) with h | h
    · rcases max_choice a b with hm | hm
      · exact Or.inl (h.trans hm)
      · exact Or.inr (List.mem_cons.mpr (Or.inl (h.trans hm)))
    · exact Or.inr (List.mem_cons.mpr (Or.inr h))

/-- Every existing id is strictly below the next assigned id. -/
theorem next_id_gt (ps : List Project) (p : Project) (hp : p ∈ ps) :
    p.id < next_id ps := by
  cases ps with
  | nil => cases hp
  | cons q rest =>
    show p.id < foldlMax q.id (rest.map Project.id) + 1
    have hle : p.id ≤ foldlMax q.id (rest.map Project.id) := by
      rcases List.mem_cons.mp hp with rfl | h
      · exact le_foldlMax_init _ _
      · exact le_foldlMax_mem _ _ _ (List.mem_map_of_mem Project.id h)
    omega

/-- On a nonempty collection the next id is one more than some existing id. -/
theorem next_id_attained (p : Project) (rest : List Project) :
    ∃ q ∈ p :: rest, next_id (p :: rest) = q.id + 1 := by
  show ∃ q ∈ p :: rest, foldlMax p.id (rest.map Project.id) + 1 = q.id + 1
  rcases foldlMax_eq_init_or_mem (rest.map Project.id) p.id with h | h
  · exact ⟨p, List.mem_cons_self p rest, by rw [h]⟩
  · rcases List.mem_map.mp h with ⟨q, hq, hid⟩
    exact ⟨q, List.mem_cons_of_mem p hq, by rw [← hid]⟩

/-- C3: `next_id` returns 1 on the empty collection; on a nonempty collection
it returns the maximum existing id plus one, characterised as a value that
strictly dominates every existing id and equals some existing id plus one. -/
theorem next_id_spec :
    next_id ([] : List Project) = 1 ∧
    ∀ (p : Project) (rest : List Project),
      (∀ q ∈ p :: rest, q.id < next_id (p :: rest)) ∧
      ∃ q ∈ p :: rest, next_id (p :: rest) = q.id + 1 :=
  ⟨rfl, fun p rest =>
    ⟨fun q hq => next_id_gt (p :: rest) q hq, next_id_attained p rest⟩⟩

/-- Witness for C3 at a concrete input: on ids 1 and 3 the next id dominates
both, and indeed equals 4. -/
theorem next_id_spec_witness :
    (pWid 3).id < next_id [pWid 1, pWid 3] ∧ next_id [pWid 1, pWid 3] = 4 :=
  ⟨(next_id_spec.2 (pWid 1) [pWid 3]).1 (pWid 3) (by simp),
   by decide⟩

/-- Setting a row to one carrying the same id leaves the id column
unchanged. -/
theorem map_id_set (l : List Project) :
    ∀ (i : Nat) (p q : Project), l[i]? = some p → q.id = p.id →
      (l.set i q).map Project.id = l.map Project.id := by
  induction l with
  | nil => intro i p q h _; simp at h
  | cons a t ih =>
    intro i p q h hid
    cases i with
    | zero =>
      rw [List.getElem?_cons_zero] at h
      injection h with h
      subst h
      rw [List.set_cons_zero, List.map_cons, List.map_cons, hid]
    | succ n =>
      rw [List.getElem?_cons_succ] at h
      rw [List.set_cons_succ, List.map_cons, List.map_cons, ih n p q h hid]

/-- C9: pairwise-distinct project ids are an invariant of the repository
mutations: adding a project (with id `next_id`), updating a project's mutable
fields, and deleting a project all preserve a duplicate-free id column. -/
theorem ids_unique_invariant (ps : List Project)
    (h : (ps.map Project.id).Nodup) :
    (∀ today : String, ((add_project ps today).map Project.id).Nodup)
    ∧ (∀ (i : Nat) (f : ProjectFields),
        ((update_project ps i f).map Project.id).Nodup)
    ∧ (∀ (cs : List PdsaCycle) (i : Nat),
        (((delete_project ps cs i).1).map Project.id).Nodup) := by
  refine ⟨?_, ?_, ?_⟩
  · intro today
    unfold add_project
    rw [List.map_append, List.nodup_append_comm]
    show ((newProjectRecord (next_id ps) today).id :: ps.map Project.id).Nodup
    rw [List.nodup_cons]
    refine ⟨?_, h⟩
    intro hmem
    rcases List.mem_map.mp hmem with ⟨p, hp, hid⟩
    have := next_id_gt ps p hp
    rw [hid] at this
    exact absurd this (by simp [newProjectRecord])
  · intro i f
    unfold update_project
    cases hi : ps[i]? with
    | none => exact h
    | some p =>
      show ((ps.set i _).map Project.id).Nodup
      rw [map_id_set ps i p
        { p with
          title := some f.title, smart_aim := some f.smart_aim
          problem_statement := some f.problem_statement, status := some f.status
          metrics := some f.metrics, advisor := some f.advisor
          service := some f.service, start_date := some f.start_date
          end_date := some f.end_date, tags := some f.tags } hi rfl]
      exact h
  · intro cs i
    unfold delete_project
    cases hi : ps[i]? with
    | none => exact h
    | some p =>
      exact List.Nodup.sublist
        (List.Sublist.map Project.id (List.eraseIdx_sublist ps i)) h

/-- Witness for C9 at a concrete input: starting from distinct ids 1 and 3,
adding a project keeps the id column duplicate-free. -/
theorem ids_unique_invariant_witness :
    ((add_project [pWid 1, pWid 3] "2024-06-01").map Project.id).Nodup :=
  (ids_unique_invariant [pWid 1, pWid 3] (by decide)).1 "2024-06-01"

/-- Dropping the row at a position whose id occurs nowhere else agrees with
filtering that id out. -/
theorem eraseIdx_eq_filter_of_nodup :
    ∀ (ps : List Project) (i : Nat) (p : Project),
      (ps.map Project.id).Nodup → ps[i]? = some p →
      ps.eraseIdx i = ps.filter (fun q => !(q.id == p.id)) := by
  intro ps
  induction ps with
  | nil => intro i p _ h; simp at h
  | cons a t ih =>
    intro i p hnd h
    rw [List.map_cons, List.nodup_cons] at hnd
    obtain ⟨hna, hnt⟩ := hnd
    cases i with
    | zero =>
      rw [List.getElem?_cons_zero] at h
      injection h with h
      subst h
      rw [List.eraseIdx_zero, List.filter_cons]
      have hfa : (!(a.id == a.id)) = false := by simp
      rw [hfa]
      simp only [Bool.false_eq_true, if_false, List.tail_cons]
      symm
      apply List.filter_eq_self.mpr
      intro q hq
      have : q.id ≠ a.id := by
        intro he
        exact hna (he ▸ List.mem_map_of_mem Project.id hq)
      simp [this]
    | succ n =>
      rw [List.getElem?_cons_succ] at h
      have hpa : a.id ≠ p.id := by
        intro he
        apply hna
        have hpt : p ∈ t := by
          rcases List.getElem?_eq_some_iff.mp h with ⟨hlt, hget⟩
          exact hget ▸ List.getElem_mem hlt
        rw [he]
        exact List.mem_map_of_mem Project.id hpt
      rw [List.eraseIdx_cons_succ, List.filter_cons]
      have : (!(a.id == p.id)) = true := by simp [hpa]
      rw [this]
      simp only [if_true]
      rw [ih n p hnt h]

/-- C2: when the ids are pairwise distinct and position `i` holds the project
with id `p.id`, deleting it removes exactly that project record and exactly
the PDSA cycles whose `project_id` equals it, keeping every other record of
both collections in order. -/
theorem delete_project_spec (ps : List Project) (cs : List PdsaCycle)
    (i : Nat) (p : Project) (hnd : (ps.map Project.id).Nodup)
    (hi : ps[i]? = some p) :
    delete_project ps cs i
      = (ps.filter (fun q => !(q.id == p.id)),
         cs.filter (fun c => !(c.project_id == p.id))) := by
  unfold delete_project
  rw [hi]
  show (ps.eraseIdx i, cs.filter fun c => !(c.project_id == p.id)) = _
  rw [eraseIdx_eq_filter_of_nodup ps i p hnd hi]

/-- Witness for C2 at a concrete input: deleting the project with id 5
removes it and both its cycles while the other project and the cycle of
project 1 survive. -/
theorem delete_project_spec_witness :
    delete_project [pW1, pW5] [cycW 5 "c1", cycW 1 "c2", cycW 5 "c3"] 1
      = ([pW1], [cycW 1 "c2"]) := by
  rw [delete_project_spec [pW1, pW5] [cycW 5 "c1", cycW 1 "c2", cycW 5 "c3"]
    1 pW5 (by decide) rfl]
  decide

/-- C8 counterexample: with an empty cycles table and a replacement row that
carries a different project id (2) than the edited project (1), the result's
cycles for project 1 are not the replacement rows — the claim fails as
universally stated over replacement row sets. -/
theorem replace_pdsa_counterexample :
    ¬ ((replace_pdsa_for_project [] 1 [cycW 2 "stray"]).filter
        (fun c => c.project_id == 1) = [cycW 2 "stray"]) := by
  decide

/-- C8 (amended): provided every replacement row carries the given
project id, `replace_pdsa_for_project` leaves the cycles of every other
project unchanged and makes the cycles of the given project exactly the
replacement rows. -/
theorem replace_pdsa_spec (cs : List PdsaCycle) (pid : Int)
    (newRows : List PdsaCycle) (h : ∀ r ∈ newRows, r.project_id = pid) :
    (replace_pdsa_for_project cs pid newRows).filter
        (fun c => !(c.project_id == pid))
      = cs.filter (fun c => !(c.project_id == pid))
    ∧ (replace_pdsa_for_project cs pid newRows).filter
        (fun c => c.project_id == pid) = newRows := by
  unfold replace_pdsa_for_project
  constructor
  · rw [List.filter_append]
    have h1 : (cs.filter (fun c => !(c.project_id == pid))).filter
        (fun c => !(c.project_id == pid))
        = cs.filter (fun c => !(c.project_id == pid)) := by
      rw [List.filter_filter]
      apply List.filter_congr
      intro x _
      rw [Bool.and_self]
    have h2 : newRows.filter (fun c => !(c.project_id == pid)) = [] :=
      List.filter_eq_nil_iff.mpr (fun r hr => by simp [h r hr])
    rw [h1, h2, List.append_nil]
  · rw [List.filter_append]
    have h1 : (cs.filter (fun c => !(c.project_id == pid))).filter
        (fun c => c.project_id == pid) = [] := by
      rw [List.filter_filter]
      apply List.filter_eq_nil_iff.mpr
      intro x _
      simp
    have h2 : newRows.filter (fun c => c.project_id == pid) = newRows :=
      List.filter_eq_self.mpr (fun r hr => by simp [h r hr])
    rw [h1, h2, List.nil_append]

/-- Witness for the amended C8 at a concrete input: replacing project 1's
cycles with one new row for project 1 makes its cycles exactly that row. -/
theorem replace_pdsa_spec_witness :
    (replace_pdsa_for_project [cycW 1 "x", cycW 2 "y"] 1 [cycW 1 "z"]).filter
        (fun c => c.project_id == 1) = [cycW 1 "z"] :=
  (replace_pdsa_spec [cycW 1 "x", cycW 2 "y"] 1 [cycW 1 "z"] (by decide)).2

/-- After the storage initializer runs, the directory and both files exist. -/
theorem ensure_data_dir_ready (fs : StorageState) :
    (ensure_data_dir fs).dirExists = true
    ∧ (ensure_data_dir fs).projectsFile.isSome = true
    ∧ (ensure_data_dir fs).pdsaFile.isSome = true := by
  cases fs with
  | mk d pr pd =>
    cases d <;> cases pr <;> cases pd <;> simp [ensure_data_dir]

/-- C7: the storage initializer never overwrites existing stores — on a state
where the directory and both backing files exist it is the identity — and it
is idempotent: running it twice from any state equals running it once. -/
theorem ensure_data_dir_spec :
    (∀ fs : StorageState, fs.dirExists = true →
      fs.projectsFile.isSome = true → fs.pdsaFile.isSome = true →
      ensure_data_dir fs = fs)
    ∧ ∀ fs : StorageState,
        ensure_data_dir (ensure_data_dir fs) = ensure_data_dir fs := by
  have hall : ∀ fs : StorageState, fs.dirExists = true →
      fs.projectsFile.isSome = true → fs.pdsaFile.isSome = true →
      ensure_data_dir fs = fs := by
    intro fs h1 h2 h3
    unfold ensure_data_dir
    simp [h1, h2, h3]
  refine ⟨hall, fun fs => ?_⟩
  obtain ⟨h1, h2, h3⟩ := ensure_data_dir_ready fs
  exact hall (ensure_data_dir fs) h1 h2 h3

/-- Witness for C7 at a concrete input: on a fully initialized storage state
the initializer changes nothing. -/
theorem ensure_data_dir_spec_witness :
    ensure_data_dir
        ⟨true, some [projectsHeader, exampleProjectRow], some [pdsaHeader]⟩
      = ⟨true, some [projectsHeader, exampleProjectRow], some [pdsaHeader]⟩ :=
  ensure_data_dir_spec.1
    ⟨true, some [projectsHeader, exampleProjectRow], some [pdsaHeader]⟩
    rfl rfl rfl

end QITracker
